import Mathlib

/-!
Verification of the QUIC loss-detection core (src/iocore/net/quic/QUICLossDetector.cc)
against its natural-language specification.

The detector's mutable state and its operations are shallowly embedded below.
Machine integers are modelled as follows:
* `ink_hrtime` (int64 nanoseconds) is modelled as `ℤ`; no int64 overflow occurs
  in the regimes the theorems speak about.
* the outstanding counters are `uint32_t` atomics in the source; they are
  modelled as `ℕ` values in `[0, 2^32)` with explicit wrap-around increment and
  decrement (`inc32` / `dec32`).
* `QUICPacketNumber` is a 62-bit unsigned value; `uint64_t` subtraction on it
  (`largest_acked - packet_number`) is modelled modulo `2^64` (`delta64`), and
  the `x--` walk of `_determine_newly_acked_packets` decrements modulo `2^64`
  (`dec64`).
* `delay_until_lost` is a `uint32_t` local; assigning the int64 product
  `9 / 8 * max(latest_rtt, smoothed_rtt)` to it is a modular conversion, and
  assigning the double `(1 + _TIME_REORDERING_FRACTION) * max(...)` truncates
  toward zero (exact in the in-range regime; out of range the source conversion
  is undefined behaviour, here totalised by the same formula).

The class header (QUICLossDetector.h) is not part of the sources; the
configuration constants it declares are modelled from the spec (section 3,
"Configuration constants"), and are marked as such below.
-/

namespace QUICLD

/-- 2^32, the modulus of the uint32 outstanding counters. -/
def W32 : ℕ := 4294967296

/-- 2^64, the modulus of uint64 packet-number arithmetic. -/
def W64 : ℕ := 18446744073709551616

/-- UINT32_MAX, used by the constructor as the packet-count threshold in
time-loss mode and by `_detect_lost_packets` as the initial value of
`delay_until_lost`. -/
def UINT32_MAX : ℕ := 4294967295

/-- HRTIME_MSECONDS(1): one millisecond in nanoseconds. -/
def HRTIME_MSECOND : ℤ := 1000000

/-- Modelled from the spec: `_MAX_TLPS` (header not in the sources), spec value 2. -/
def MAX_TLPS : ℕ := 2

/-- Modelled from the spec: `_REORDERING_THRESHOLD` (header not in the sources), spec value 3. -/
def REORDERING_THRESHOLD : ℕ := 3

/-- Modelled from the spec: `_MIN_TLP_TIMEOUT` (header not in the sources), spec value 10 ms. -/
def MIN_TLP_TIMEOUT : ℤ := 10000000

/-- Modelled from the spec: `_MIN_RTO_TIMEOUT` (header not in the sources), spec value 200 ms. -/
def MIN_RTO_TIMEOUT : ℤ := 200000000

/-- Modelled from the spec: `_DELAYED_ACK_TIMEOUT` (header not in the sources), spec value 25 ms. -/
def DELAYED_ACK_TIMEOUT : ℤ := 25000000

/-- Modelled from the spec: `_DEFAULT_INITIAL_RTT` (header not in the sources), spec value 100 ms. -/
def DEFAULT_INITIAL_RTT : ℤ := 100000000

/-- uint32 wrap-around increment (`++counter` on a uint32_t). -/
def inc32 (c : ℕ) : ℕ := (c + 1) % W32

/-- uint32 wrap-around decrement (`--counter` on a uint32_t). -/
def dec32 (c : ℕ) : ℕ := (c + (W32 - 1)) % W32

/-- uint64 wrap-around decrement (`x--` on a QUICPacketNumber). -/
def dec64 (x : ℕ) : ℕ := (x + (W64 - 1)) % W64

/-- `n` successive uint64 decrements. -/
def decIter : ℕ → ℕ → ℕ
  | 0, x => x
  | n + 1, x => decIter n (dec64 x)

/-- uint64 difference `largest - pn`, as computed by
`largest_acked_packet_number - unacked.second->packet_number`. -/
def delta64 (largest pn : ℕ) : ℕ := (W64 + largest - pn) % W64

/-- The metadata record `PacketInfo` kept per sent packet
(packet object handle omitted: it is only passed to the external Transmitter). -/
structure PacketInfo where
  packet_number : ℕ
  time : ℤ
  retransmittable : Bool
  handshake : Bool
  bytes : ℕ
deriving Repr, DecidableEq

/-- `_sent_packets`: the `std::map<QUICPacketNumber, PacketInfo>`, as the
ascending association list the map iterates as. -/
abbrev Registry := List (ℕ × PacketInfo)

/-- Map lookup (`_sent_packets.find`): first entry with the given key. -/
def regFind (k : ℕ) : Registry → Option PacketInfo
  | [] => none
  | (k', v) :: rest => if k' = k then some v else regFind k rest

/-- Map erasure (`_sent_packets.erase(k)`): drop the entry with key `k`. -/
def regErase (k : ℕ) (l : Registry) : Registry :=
  l.filter (fun e => e.1 ≠ k)

/-- Map insertion (`_sent_packets.insert`): ordered insert that keeps the
existing entry when the key is already present (std::map::insert semantics). -/
def regInsert (k : ℕ) (v : PacketInfo) : Registry → Registry
  | [] => [(k, v)]
  | (k', v') :: rest =>
    if k < k' then (k, v) :: (k', v') :: rest
    else if k = k' then (k', v') :: rest
    else (k', v') :: regInsert k v rest

/-- Keys of the registry, in iteration order. -/
def regKeys (l : Registry) : List ℕ := l.map Prod.fst

/-- Number of registry entries with `handshake = true`. -/
def hsCard (l : Registry) : ℕ := (l.filter (fun e => e.2.handshake)).length

/-- Number of registry entries with `retransmittable = true`. -/
def rtCard (l : Registry) : ℕ := (l.filter (fun e => e.2.retransmittable)).length

/-- One block of a parsed ACK frame's ack-block section. -/
structure AckBlock where
  gap : ℕ
  length : ℕ
deriving Repr, DecidableEq

/-- A parsed ACK frame, as consumed by `_on_ack_received`. -/
structure AckFrame where
  largest_acknowledged : ℕ
  ack_delay : ℕ
  first_ack_block_length : ℕ
  blocks : List AckBlock
deriving Repr, DecidableEq

/-- The descending run `x, x-1, ..., x-n` (uint64 wrap), i.e. the packet
numbers inserted by a `for (i = 0; i <= n; ++i) insert(x--)` loop. -/
def descList : ℕ → ℕ → List ℕ
  | x, 0 => [x]
  | x, n + 1 => x :: descList (dec64 x) n

/-- The numbers collected from the trailing ack blocks: for each block skip
`gap + 1` numbers, then take `length + 1` numbers. -/
def blockAcked : ℕ → List AckBlock → List ℕ
  | _, [] => []
  | x, b :: rest =>
    let x1 := decIter (b.gap + 1) x
    descList x1 b.length ++ blockAcked (decIter (b.length + 1) x1) rest

/-- `_determine_newly_acked_packets`: the packet numbers the ACK frame covers.
The source collects them in a `std::set`; the list below lists them in
generation order, possibly with duplicates after uint64 wrap.  Folding
`_on_packet_acked` over this list coincides with folding it over the set:
each step only erases its own key and zeroes the retry counts, so order and
multiplicity do not affect the final state. -/
def determineNewlyAcked (a : AckFrame) : List ℕ :=
  descList a.largest_acknowledged a.first_ack_block_length ++
    blockAcked (decIter (a.first_ack_block_length + 1) a.largest_acknowledged) a.blocks

/-- All mutable detector state (spec section 3, "DetectorState").
`_time_reordering_fraction` only ever holds INFINITY or the spec constant
`_TIME_REORDERING_FRACTION` = 1/8, so it is represented by the Boolean
`time_loss_active` (`= (fraction != INFINITY)`); `alarm_armed` represents
`_loss_detection_alarm != nullptr`. -/
structure LDState where
  sent_packets : Registry
  handshake_outstanding : ℕ
  retransmittable_outstanding : ℕ
  largest_sent_packet : ℕ
  largest_acked_packet : ℕ
  time_of_last_sent_packet : ℤ
  latest_rtt : ℤ
  smoothed_rtt : ℤ
  rttvar : ℤ
  loss_time : ℤ
  handshake_count : ℕ
  tlp_count : ℕ
  rto_count : ℕ
  largest_sent_before_rto : ℕ
  reordering_threshold : ℕ
  time_loss_active : Bool
  loss_detection_alarm_at : ℤ
  alarm_armed : Bool
deriving Repr, DecidableEq

/-- The constructor `QUICLossDetector::QUICLossDetector`: in time-loss mode the
packet-count threshold is UINT32_MAX, otherwise `_REORDERING_THRESHOLD`. -/
def initialState (time_loss_detection : Bool) : LDState :=
  { sent_packets := []
    handshake_outstanding := 0
    retransmittable_outstanding := 0
    largest_sent_packet := 0
    largest_acked_packet := 0
    time_of_last_sent_packet := 0
    latest_rtt := 0
    smoothed_rtt := 0
    rttvar := 0
    loss_time := 0
    handshake_count := 0
    tlp_count := 0
    rto_count := 0
    largest_sent_before_rto := 0
    reordering_threshold := if time_loss_detection then UINT32_MAX else REORDERING_THRESHOLD
    time_loss_active := time_loss_detection
    loss_detection_alarm_at := 0
    alarm_armed := false }

/-- `_update_rtt` (QUICLossDetector.cc:283-294).  The source's `3 / 4`, `1 / 4`,
`7 / 8`, `1 / 8` are C++ integer divisions and are kept literally (each equals
0 on `ℤ` exactly as in the source); `latest_rtt / 2` is int64 division
(truncation toward zero, `Int.tdiv`). -/
def updateRtt (latest_rtt : ℤ) (s : LDState) : LDState :=
  if s.smoothed_rtt = 0 then
    { s with smoothed_rtt := latest_rtt, rttvar := latest_rtt.tdiv 2 }
  else
    { s with
      rttvar := 3 / 4 * s.rttvar + 1 / 4 * |s.smoothed_rtt - latest_rtt|,
      smoothed_rtt := 7 / 8 * s.smoothed_rtt + 1 / 8 * latest_rtt }

/-- `delay_until_lost` as computed at the top of `_detect_lost_packets`
(QUICLossDetector.cc:111-118).
* time-loss branch: `(1 + _TIME_REORDERING_FRACTION) * max(latest, smoothed)`
  with the fraction = 1/8 (spec-modelled constant; header not in the sources),
  computed in double and converted to uint32: truncation, `9x/8` rounded down
  (exact for `0 ≤ 9x/8 < 2^32`; outside that range the source conversion is
  undefined behaviour and the formula below totalises it);
* early-retransmit branch: `9 / 8` is C++ integer division and equals 1, so the
  source computes `1 * max(latest, smoothed)`; int64 → uint32 is modular;
* otherwise the local keeps its initializer UINT32_MAX. -/
def delayUntilLost (s : LDState) (largest_acked : ℕ) : ℕ :=
  if s.time_loss_active then
    9 * (max s.latest_rtt s.smoothed_rtt).toNat / 8
  else if largest_acked = s.largest_sent_packet then
    ((max s.latest_rtt s.smoothed_rtt) % (4294967296 : ℤ)).toNat
  else
    UINT32_MAX

/-- The walk of `_detect_lost_packets` (QUICLossDetector.cc:119-132): traverse
ascending, break at the first key `>= largest_acked`; collect keys that are
lost (the source's two inserting branches, combined in one disjunction:
`time_since_sent > delay_until_lost` or `packet_delta > reordering_threshold`);
otherwise, if the accumulated `loss_time` is still 0, arm it.  The source's
guard `delay_until_lost != INFINITY` compares a uint32 with the float INFINITY
and is true for every uint32 value, so it imposes no condition here. -/
def detectWalk (now : ℤ) (largest : ℕ) (delay : ℕ) (thr : ℕ) :
    Registry → ℤ → List ℕ × ℤ
  | [], lt => ([], lt)
  | (k, pi) :: rest, lt =>
    if largest ≤ k then ([], lt)
    else if now - pi.time > (delay : ℤ) ∨ thr < delta64 largest pi.packet_number then
      (k :: (detectWalk now largest delay thr rest lt).1,
        (detectWalk now largest delay thr rest lt).2)
    else
      detectWalk now largest delay thr rest
        (if lt = 0 then now + (delay : ℤ) - (now - pi.time) else lt)

/-- The pair (lost set in walk order, final `_loss_time`) produced by a call to
`_detect_lost_packets`.  The accumulator starts at 0 because the source zeroes
`_loss_time` on entry. -/
def detectResult (now : ℤ) (largest : ℕ) (s : LDState) : List ℕ × ℤ :=
  detectWalk now largest (delayUntilLost s largest) s.reordering_threshold s.sent_packets 0

/-- `_decrement_packet_count` (QUICLossDetector.cc:239-252): if the key is
present, decrement the outstanding counters according to the entry's flags. -/
def decrementPacketCount (pn : ℕ) (s : LDState) : LDState :=
  match regFind pn s.sent_packets with
  | none => s
  | some pi =>
    { s with
      handshake_outstanding :=
        if pi.handshake then dec32 s.handshake_outstanding else s.handshake_outstanding,
      retransmittable_outstanding :=
        if pi.retransmittable then dec32 s.retransmittable_outstanding
        else s.retransmittable_outstanding }

/-- The removal loop at the end of `_detect_lost_packets`
(QUICLossDetector.cc:136-142): for each lost number, `_decrement_packet_count`
then `erase` (the `lost_packets.empty()` guard only protects the external
congestion-controller call; on the empty list the fold is the identity). -/
def removeLost (s : LDState) (lost : List ℕ) : LDState :=
  lost.foldl
    (fun t k =>
      let t := decrementPacketCount k t
      { t with sent_packets := regErase k t.sent_packets })
    s

/-- `_detect_lost_packets` (QUICLossDetector.cc:105-143). -/
def detectLostPackets (now : ℤ) (largest : ℕ) (s : LDState) : LDState :=
  removeLost { s with loss_time := (detectResult now largest s).2 }
    (detectResult now largest s).1

/-- The `alarm_duration` computed by `_set_loss_detection_alarm`
(QUICLossDetector.cc:307-336).  `1.5 * smoothed_rtt` is computed in double and
truncated on assignment to `ink_hrtime` (`(3x).tdiv 2`, exact for
`smoothed_rtt ≥ 0`); `1 << count` is modelled as `2 ^ count`. -/
def alarmDuration (now : ℤ) (s : LDState) : ℤ :=
  if s.handshake_outstanding ≠ 0 then
    let base := if s.smoothed_rtt = 0 then 2 * DEFAULT_INITIAL_RTT else 2 * s.smoothed_rtt
    (max base MIN_TLP_TIMEOUT) * 2 ^ s.handshake_count
  else if s.loss_time ≠ 0 then
    s.loss_time - now
  else if s.tlp_count < MAX_TLPS then
    let d :=
      if s.retransmittable_outstanding ≠ 0 then
        (3 * s.smoothed_rtt).tdiv 2 + DELAYED_ACK_TIMEOUT
      else MIN_TLP_TIMEOUT
    max d (2 * s.smoothed_rtt)
  else
    (max (s.smoothed_rtt + 4 * s.rttvar) MIN_RTO_TIMEOUT) * 2 ^ s.rto_count

/-- `_set_loss_detection_alarm` (QUICLossDetector.cc:296-348).  The early
return cancels only when `_loss_detection_alarm` is non-null; otherwise a mode
duration is computed and the deadline is `min(existing nonzero deadline,
now + duration)`, and the recurring event is scheduled if absent. -/
def setLossDetectionAlarm (now : ℤ) (s : LDState) : LDState :=
  if s.retransmittable_outstanding = 0 ∧ s.alarm_armed then
    { s with loss_detection_alarm_at := 0, alarm_armed := false }
  else
    let d := alarmDuration now s
    { s with
      loss_detection_alarm_at :=
        if s.loss_detection_alarm_at ≠ 0 then min s.loss_detection_alarm_at (now + d)
        else now + d,
      alarm_armed := true }

/-- `_on_packet_sent` (QUICLossDetector.cc:166-185). -/
def onPacketSent (now : ℤ) (packet_number : ℕ) (is_retransmittable is_handshake : Bool)
    (sent_bytes : ℕ) (s : LDState) : LDState :=
  let s := { s with largest_sent_packet := packet_number, time_of_last_sent_packet := now }
  let pi : PacketInfo :=
    ⟨packet_number, now, is_retransmittable, is_handshake, sent_bytes⟩
  let s := { s with sent_packets := regInsert packet_number pi s.sent_packets }
  let s :=
    if is_handshake then { s with handshake_outstanding := inc32 s.handshake_outstanding }
    else s
  if is_retransmittable then
    setLossDetectionAlarm now
      { s with retransmittable_outstanding := inc32 s.retransmittable_outstanding }
  else s

/-- `_on_packet_acked` (QUICLossDetector.cc:222-237): reset the retry counts,
decrement counters for the entry if present, erase it. -/
def onPacketAcked (pn : ℕ) (s : LDState) : LDState :=
  let s := { s with handshake_count := 0, tlp_count := 0, rto_count := 0 }
  let s := decrementPacketCount pn s
  { s with sent_packets := regErase pn s.sent_packets }

/-- The first block of `_on_ack_received` (QUICLossDetector.cc:190-209): record
the largest acknowledged number, take an RTT sample if that number is still in
the registry (subtracting the peer ack delay only when smaller than the
sample), then process every covered number with `_on_packet_acked`. -/
def onAckPhase1 (now : ℤ) (ack : AckFrame) (s : LDState) : LDState :=
  let s := { s with largest_acked_packet := ack.largest_acknowledged }
  let s :=
    match regFind ack.largest_acknowledged s.sent_packets with
    | none => s
    | some pi =>
      let lr := now - pi.time
      let lr :=
        if lr > (ack.ack_delay : ℤ) * HRTIME_MSECOND then
          lr - (ack.ack_delay : ℤ) * HRTIME_MSECOND
        else lr
      updateRtt lr { s with latest_rtt := lr }
  (determineNewlyAcked ack).foldl (fun t n => onPacketAcked n t) s

/-- `_on_ack_received` up to and including `_detect_lost_packets`. -/
def onAckCore (now : ℤ) (ack : AckFrame) (s : LDState) : LDState :=
  detectLostPackets now ack.largest_acknowledged (onAckPhase1 now ack s)

/-- `_on_ack_received` (QUICLossDetector.cc:187-220). -/
def onAckReceived (now : ℤ) (ack : AckFrame) (s : LDState) : LDState :=
  setLossDetectionAlarm now (onAckCore now ack s)

/-- The keys of the leading run of handshake entries of the registry: the walk
of `_retransmit_handshake_packets` (QUICLossDetector.cc:377-383) stops at the
first non-handshake entry. -/
def leadingHandshakes : Registry → List ℕ
  | [] => []
  | (k, pi) :: rest => if pi.handshake then k :: leadingHandshakes rest else []

/-- The removal step of `_retransmit_handshake_packets`
(QUICLossDetector.cc:385-389): erase the entry and decrement both outstanding
counters unconditionally (the transmitter call has no detector-state effect). -/
def retransmitStep (t : LDState) (k : ℕ) : LDState :=
  { t with
    sent_packets := regErase k t.sent_packets,
    handshake_outstanding := dec32 t.handshake_outstanding,
    retransmittable_outstanding := dec32 t.retransmittable_outstanding }

/-- `_retransmit_handshake_packets` (QUICLossDetector.cc:370-390). -/
def retransmitHandshakePackets (s : LDState) : LDState :=
  (leadingHandshakes s.sent_packets).foldl retransmitStep s

/-- `_on_loss_detection_alarm` (QUICLossDetector.cc:254-281).
`_send_one_packet` and `_send_two_packets` only talk to the external
Transmitter and change no detector state. -/
def onLossDetectionAlarm (now : ℤ) (s : LDState) : LDState :=
  let s :=
    if s.handshake_outstanding ≠ 0 then
      let s := retransmitHandshakePackets s
      { s with handshake_count := s.handshake_count + 1 }
    else if s.loss_time ≠ 0 then
      detectLostPackets now s.largest_acked_packet s
    else if s.tlp_count < MAX_TLPS then
      { s with tlp_count := s.tlp_count + 1 }
    else
      let s :=
        if s.rto_count = 0 then { s with largest_sent_before_rto := s.largest_sent_packet }
        else s
      { s with rto_count := s.rto_count + 1 }
  setLossDetectionAlarm now s

/-- One core operation, as in the claims: a send, an ACK delivery, an alarm
firing, or one of the retransmission actions. -/
inductive LDOp where
  | send (now : ℤ) (packet_number : ℕ) (is_retransmittable is_handshake : Bool)
      (sent_bytes : ℕ)
  | ack (now : ℤ) (frame : AckFrame)
  | alarm (now : ℤ)
  | retransmitHandshake
  | sendOnePacket
  | sendTwoPackets
deriving Repr

/-- Apply one core operation to the state. -/
def applyOp (s : LDState) : LDOp → LDState
  | .send now pn r h b => onPacketSent now pn r h b s
  | .ack now f => onAckReceived now f s
  | .alarm now => onLossDetectionAlarm now s
  | .retransmitHandshake => retransmitHandshakePackets s
  | .sendOnePacket => s
  | .sendTwoPackets => s

/-- Run a sequence of core operations from the constructed state. -/
def run (time_loss_detection : Bool) (ops : List LDOp) : LDState :=
  ops.foldl applyOp (initialState time_loss_detection)

/-- The spec's caller contract (section 3): every packet number sent strictly
exceeds `largest_sent_packet` at the time of insertion. -/
def opsWF (s : LDState) : List LDOp → Bool
  | [] => true
  | op :: rest =>
    (match op with
     | .send _ pn _ _ _ => decide (s.largest_sent_packet < pn)
     | _ => true) && opsWF (applyOp s op) rest

/-- Whether every send in the sequence with `handshake = true` also has
`retransmittable = true`. -/
def sendsHSRetrans : List LDOp → Bool
  | [] => true
  | .send _ _ r h _ :: rest => (!h || r) && sendsHSRetrans rest
  | _ :: rest => sendsHSRetrans rest

/-- Iterated registry erasure (proof helper): erase each key of the list in turn. -/
def eraseAll (ks : List ℕ) (l : Registry) : Registry :=
  ks.foldl (fun r j => regErase j r) l

/-- The counter/registry consistency invariant of the claims, together with the
structural facts its preservation needs: distinct keys, keys bounded by
`largest_sent_packet`, and every handshake entry retransmittable.  The two
counters are uint32 values, so they track the cardinalities modulo 2^32. -/
def InvCount (s : LDState) : Prop :=
  (regKeys s.sent_packets).Nodup ∧
  (∀ e ∈ s.sent_packets, e.1 ≤ s.largest_sent_packet) ∧
  (∀ e ∈ s.sent_packets, e.2.handshake = true → e.2.retransmittable = true) ∧
  s.handshake_outstanding = hsCard s.sent_packets % W32 ∧
  s.retransmittable_outstanding = rtCard s.sent_packets % W32

/-! ### Basic registry lemmas -/

theorem regFind_eq_none {k : ℕ} : ∀ {l : Registry}, regFind k l = none ↔ k ∉ regKeys l := by
  intro l
  induction l with
  | nil => simp [regFind, regKeys]
  | cons e rest ih =>
    obtain ⟨k', v⟩ := e
    simp only [regKeys, List.map_cons, List.mem_cons, not_or]
    by_cases hk : k' = k
    · simp [regFind, hk]
    · simp only [regFind, if_neg hk, ih]
      exact ⟨fun h => ⟨fun he => hk he.symm, h⟩, fun h => h.2⟩

theorem regFind_mem {k : ℕ} {pi : PacketInfo} :
    ∀ {l : Registry}, regFind k l = some pi → (k, pi) ∈ l := by
  intro l
  induction l with
  | nil => simp [regFind]
  | cons e rest ih =>
    obtain ⟨k', v⟩ := e
    by_cases hk : k' = k
    · subst hk
      intro h
      have hv : v = pi := by simpa [regFind] using h
      subst hv
      exact List.mem_cons_self _ _
    · simp only [regFind, if_neg hk]
      intro h
      exact List.mem_cons_of_mem _ (ih h)

theorem mem_regErase {a : ℕ × PacketInfo} {k : ℕ} {l : Registry} :
    a ∈ regErase k l ↔ a ∈ l ∧ a.1 ≠ k := by
  simp [regErase, List.mem_filter]

theorem regErase_cons_of_ne {k k' : ℕ} {v : PacketInfo} {l : Registry} (h : k' ≠ k) :
    regErase k ((k', v) :: l) = (k', v) :: regErase k l := by
  simp [regErase, List.filter_cons, h]

theorem regErase_cons_self {k : ℕ} {v : PacketInfo} {l : Registry} :
    regErase k ((k, v) :: l) = regErase k l := by
  simp [regErase, List.filter_cons]

theorem regErase_of_not_mem {k : ℕ} {l : Registry} (h : k ∉ regKeys l) :
    regErase k l = l := by
  induction l with
  | nil => rfl
  | cons e rest ih =>
    obtain ⟨k', v⟩ := e
    simp only [regKeys, List.map_cons, List.mem_cons, not_or] at h
    rw [regErase_cons_of_ne (fun he => h.1 he.symm), ih (by simpa [regKeys] using h.2)]

theorem regErase_sublist (k : ℕ) (l : Registry) : (regErase k l).Sublist l :=
  List.filter_sublist l

theorem regKeys_regErase_sub {k : ℕ} {l : Registry} :
    regKeys (regErase k l) ⊆ regKeys l :=
  List.map_subset _ (regErase_sublist k l).subset

theorem nodup_regKeys_regErase {k : ℕ} {l : Registry} (h : (regKeys l).Nodup) :
    (regKeys (regErase k l)).Nodup :=
  h.sublist ((regErase_sublist k l).map _)

theorem not_mem_regKeys_regErase_self {k : ℕ} {l : Registry} :
    k ∉ regKeys (regErase k l) := by
  intro h
  simp only [regKeys, List.mem_map] at h
  obtain ⟨a, ha, hak⟩ := h
  exact absurd hak (mem_regErase.mp ha).2

theorem not_mem_regKeys_regErase {n k : ℕ} {l : Registry} (h : n ∉ regKeys l) :
    n ∉ regKeys (regErase k l) :=
  fun hx => h (regKeys_regErase_sub hx)

theorem regErase_eq_of_regFind_none {k : ℕ} {l : Registry} (h : regFind k l = none) :
    regErase k l = l :=
  regErase_of_not_mem (regFind_eq_none.mp h)

theorem regInsert_perm {k : ℕ} {v : PacketInfo} :
    ∀ {l : Registry}, k ∉ regKeys l → (regInsert k v l).Perm ((k, v) :: l) := by
  intro l
  induction l with
  | nil => intro _; simp [regInsert]
  | cons e rest ih =>
    obtain ⟨k', v'⟩ := e
    intro h
    simp only [regKeys, List.map_cons, List.mem_cons, not_or] at h
    rcases lt_trichotomy k k' with hlt | heq | hgt
    · simp [regInsert, hlt]
    · exact absurd heq h.1
    · have hne : ¬ k < k' := by omega
      have hne' : ¬ k = k' := h.1
      simp only [regInsert, if_neg hne, if_neg hne']
      exact ((ih (by simp [regKeys, h.2])).cons _).trans (List.Perm.swap _ _ _)

theorem hsCard_perm {l l' : Registry} (h : l.Perm l') : hsCard l = hsCard l' :=
  (h.filter _).length_eq

theorem rtCard_perm {l l' : Registry} (h : l.Perm l') : rtCard l = rtCard l' :=
  (h.filter _).length_eq

theorem hsCard_regErase {k : ℕ} {pi : PacketInfo} :
    ∀ {l : Registry}, (regKeys l).Nodup → regFind k l = some pi →
      hsCard l = hsCard (regErase k l) + (if pi.handshake then 1 else 0) := by
  intro l
  induction l with
  | nil => simp [regFind]
  | cons e rest ih =>
    obtain ⟨k', v⟩ := e
    intro hnd hf
    simp only [regKeys, List.map_cons, List.nodup_cons] at hnd
    by_cases hk : k' = k
    · subst hk
      have hv : v = pi := by simpa [regFind] using hf
      subst hv
      rw [regErase_cons_self, regErase_of_not_mem (by simpa [regKeys] using hnd.1)]
      by_cases hb : v.handshake = true <;> simp [hsCard, List.filter_cons, hb]
    · simp only [regFind, if_neg hk] at hf
      rw [regErase_cons_of_ne hk]
      have hrec := ih hnd.2 hf
      by_cases hb : v.handshake = true <;> by_cases hp : pi.handshake = true <;>
        simp [hsCard, List.filter_cons, hb, hp] at hrec ⊢ <;> omega

theorem rtCard_regErase {k : ℕ} {pi : PacketInfo} :
    ∀ {l : Registry}, (regKeys l).Nodup → regFind k l = some pi →
      rtCard l = rtCard (regErase k l) + (if pi.retransmittable then 1 else 0) := by
  intro l
  induction l with
  | nil => simp [regFind]
  | cons e rest ih =>
    obtain ⟨k', v⟩ := e
    intro hnd hf
    simp only [regKeys, List.map_cons, List.nodup_cons] at hnd
    by_cases hk : k' = k
    · subst hk
      have hv : v = pi := by simpa [regFind] using hf
      subst hv
      rw [regErase_cons_self, regErase_of_not_mem (by simpa [regKeys] using hnd.1)]
      by_cases hb : v.retransmittable = true <;> simp [rtCard, List.filter_cons, hb]
    · simp only [regFind, if_neg hk] at hf
      rw [regErase_cons_of_ne hk]
      have hrec := ih hnd.2 hf
      by_cases hb : v.retransmittable = true <;> by_cases hp : pi.retransmittable = true <;>
        simp [rtCard, List.filter_cons, hb, hp] at hrec ⊢ <;> omega

theorem regFind_some_of_mem {k : ℕ} {pi : PacketInfo} :
    ∀ {l : Registry}, (regKeys l).Nodup → (k, pi) ∈ l → regFind k l = some pi := by
  intro l
  induction l with
  | nil => simp
  | cons e rest ih =>
    obtain ⟨k', v⟩ := e
    intro hnd hm
    simp only [regKeys, List.map_cons, List.nodup_cons] at hnd
    rcases List.mem_cons.mp hm with he | he
    · cases he
      simp [regFind]
    · have hk : ¬ k' = k := by
        rintro rfl
        exact hnd.1 (List.mem_map_of_mem Prod.fst he)
      simp [regFind, hk, ih hnd.2 he]

/-! ### Iterated erasure -/

theorem eraseAll_nil (l : Registry) : eraseAll [] l = l := rfl

theorem eraseAll_cons (k : ℕ) (ks : List ℕ) (l : Registry) :
    eraseAll (k :: ks) l = eraseAll ks (regErase k l) := rfl

theorem not_mem_regKeys_eraseAll_of_not_mem {n : ℕ} :
    ∀ (ks : List ℕ) {l : Registry}, n ∉ regKeys l → n ∉ regKeys (eraseAll ks l) := by
  intro ks
  induction ks with
  | nil => intro l h; exact h
  | cons k rest ih =>
    intro l h
    rw [eraseAll_cons]
    exact ih (not_mem_regKeys_regErase h)

theorem not_mem_regKeys_eraseAll_of_mem {n : ℕ} :
    ∀ {ks : List ℕ} {l : Registry}, n ∈ ks → n ∉ regKeys (eraseAll ks l) := by
  intro ks
  induction ks with
  | nil => simp
  | cons k rest ih =>
    intro l h
    rw [eraseAll_cons]
    rcases List.mem_cons.mp h with rfl | h
    · exact not_mem_regKeys_eraseAll_of_not_mem rest not_mem_regKeys_regErase_self
    · exact ih h

theorem nodup_regKeys_eraseAll :
    ∀ (ks : List ℕ) {l : Registry}, (regKeys l).Nodup → (regKeys (eraseAll ks l)).Nodup := by
  intro ks
  induction ks with
  | nil => intro l h; exact h
  | cons k rest ih =>
    intro l h
    rw [eraseAll_cons]
    exact ih (nodup_regKeys_regErase h)

theorem eraseAll_cons_of_not_mem {k : ℕ} {v : PacketInfo} :
    ∀ {ks : List ℕ} {l : Registry}, k ∉ ks →
      eraseAll ks ((k, v) :: l) = (k, v) :: eraseAll ks l := by
  intro ks
  induction ks with
  | nil => intro l _; rfl
  | cons j rest ih =>
    intro l h
    simp only [List.mem_cons, not_or] at h
    rw [eraseAll_cons, eraseAll_cons, regErase_cons_of_ne h.1]
    exact ih h.2

/-! ### Shape lemmas: which fields each operation touches -/

theorem decrementPacketCount_shape (pn : ℕ) (s : LDState) :
    ∃ h r, decrementPacketCount pn s =
      { s with handshake_outstanding := h, retransmittable_outstanding := r } := by
  unfold decrementPacketCount
  cases regFind pn s.sent_packets with
  | none => exact ⟨s.handshake_outstanding, s.retransmittable_outstanding, rfl⟩
  | some pi => exact ⟨_, _, rfl⟩

theorem onPacketAcked_eq (pn : ℕ) (s : LDState) :
    onPacketAcked pn s =
      { decrementPacketCount pn { s with handshake_count := 0, tlp_count := 0, rto_count := 0 } with
        sent_packets := regErase pn
          (decrementPacketCount pn
            { s with handshake_count := 0, tlp_count := 0, rto_count := 0 }).sent_packets } := rfl

theorem onPacketAcked_shape (pn : ℕ) (s : LDState) :
    ∃ reg h r, onPacketAcked pn s =
      { s with sent_packets := reg, handshake_outstanding := h,
               retransmittable_outstanding := r,
               handshake_count := 0, tlp_count := 0, rto_count := 0 } := by
  obtain ⟨h, r, e⟩ := decrementPacketCount_shape pn
    { s with handshake_count := 0, tlp_count := 0, rto_count := 0 }
  rw [onPacketAcked_eq, e]
  exact ⟨_, _, _, rfl⟩

theorem onPacketAcked_reg (pn : ℕ) (s : LDState) :
    (onPacketAcked pn s).sent_packets = regErase pn s.sent_packets := by
  obtain ⟨h, r, e⟩ := decrementPacketCount_shape pn
    { s with handshake_count := 0, tlp_count := 0, rto_count := 0 }
  rw [onPacketAcked_eq, e]

theorem setLossDetectionAlarm_shape (now : ℤ) (s : LDState) :
    ∃ a b, setLossDetectionAlarm now s =
      { s with loss_detection_alarm_at := a, alarm_armed := b } := by
  unfold setLossDetectionAlarm
  split
  · exact ⟨_, _, rfl⟩
  · exact ⟨_, _, rfl⟩

theorem updateRtt_shape (x : ℤ) (s : LDState) :
    ∃ a b, updateRtt x s = { s with smoothed_rtt := a, rttvar := b } := by
  unfold updateRtt
  split
  · exact ⟨_, _, rfl⟩
  · exact ⟨_, _, rfl⟩

theorem removeLost_cons (s : LDState) (k : ℕ) (rest : List ℕ) :
    removeLost s (k :: rest) =
      removeLost
        { decrementPacketCount k s with
          sent_packets := regErase k (decrementPacketCount k s).sent_packets } rest := rfl

theorem removeLost_shape :
    ∀ (ls : List ℕ) (s : LDState), ∃ reg h r, removeLost s ls =
      { s with sent_packets := reg, handshake_outstanding := h,
               retransmittable_outstanding := r } := by
  intro ls
  induction ls with
  | nil => intro s; exact ⟨_, _, _, rfl⟩
  | cons k rest ih =>
    intro s
    obtain ⟨h0, r0, e0⟩ := decrementPacketCount_shape k s
    rw [removeLost_cons, e0]
    obtain ⟨reg, h, r, e⟩ := ih _
    rw [e]
    exact ⟨_, _, _, rfl⟩

theorem removeLost_reg :
    ∀ (ls : List ℕ) (s : LDState), (removeLost s ls).sent_packets = eraseAll ls s.sent_packets := by
  intro ls
  induction ls with
  | nil => intro s; rfl
  | cons k rest ih =>
    intro s
    obtain ⟨h0, r0, e0⟩ := decrementPacketCount_shape k s
    rw [removeLost_cons, e0, ih, eraseAll_cons]

theorem detectLostPackets_shape (now : ℤ) (largest : ℕ) (s : LDState) :
    ∃ reg h r, detectLostPackets now largest s =
      { s with sent_packets := reg, handshake_outstanding := h,
               retransmittable_outstanding := r,
               loss_time := (detectResult now largest s).2 } := by
  unfold detectLostPackets
  obtain ⟨reg, h, r, e⟩ := removeLost_shape (detectResult now largest s).1
    { s with loss_time := (detectResult now largest s).2 }
  rw [e]
  exact ⟨_, _, _, rfl⟩

theorem detectLostPackets_reg (now : ℤ) (largest : ℕ) (s : LDState) :
    (detectLostPackets now largest s).sent_packets =
      eraseAll (detectResult now largest s).1 s.sent_packets := by
  unfold detectLostPackets
  rw [removeLost_reg]

/-! ### uint32 counter arithmetic -/

theorem inc32_mod (c : ℕ) : inc32 (c % W32) = (c + 1) % W32 := by
  unfold inc32
  exact Nat.mod_add_mod c W32 1

theorem dec32_mod (c : ℕ) (h : 1 ≤ c) : dec32 (c % W32) = (c - 1) % W32 := by
  unfold dec32
  rw [Nat.mod_add_mod]
  have he : c + (W32 - 1) = (c - 1) + W32 := by
    simp only [W32]
    omega
  rw [he, Nat.add_mod_right]

/-! ### Preservation of the counter invariant -/

theorem invCount_congr {s t : LDState} (hreg : t.sent_packets = s.sent_packets)
    (hl : t.largest_sent_packet = s.largest_sent_packet)
    (hh : t.handshake_outstanding = s.handshake_outstanding)
    (hr : t.retransmittable_outstanding = s.retransmittable_outstanding)
    (h : InvCount s) : InvCount t := by
  unfold InvCount at h ⊢
  rw [hreg, hl, hh, hr]
  exact h

theorem invCount_setAlarm (now : ℤ) {s : LDState} (h : InvCount s) :
    InvCount (setLossDetectionAlarm now s) := by
  obtain ⟨a, b, e⟩ := setLossDetectionAlarm_shape now s
  rw [e]
  exact invCount_congr rfl rfl rfl rfl h

theorem invCount_updateRtt (x : ℤ) {s : LDState} (h : InvCount s) :
    InvCount (updateRtt x s) := by
  obtain ⟨a, b, e⟩ := updateRtt_shape x s
  rw [e]
  exact invCount_congr rfl rfl rfl rfl h

theorem invCount_ackErase (k : ℕ) {s : LDState} (h : InvCount s) :
    InvCount { decrementPacketCount k s with
      sent_packets := regErase k (decrementPacketCount k s).sent_packets } := by
  obtain ⟨hnd, hle, hhr, hhs, hrt⟩ := h
  cases hf : regFind k s.sent_packets with
  | none =>
    have hid : decrementPacketCount k s = s := by
      unfold decrementPacketCount
      rw [hf]
    rw [hid, regErase_eq_of_regFind_none hf]
    exact ⟨hnd, hle, hhr, hhs, hrt⟩
  | some pi =>
    have hd : decrementPacketCount k s = { s with
        handshake_outstanding :=
          if pi.handshake then dec32 s.handshake_outstanding else s.handshake_outstanding,
        retransmittable_outstanding :=
          if pi.retransmittable then dec32 s.retransmittable_outstanding
          else s.retransmittable_outstanding } := by
      unfold decrementPacketCount
      rw [hf]
    rw [hd]
    refine ⟨nodup_regKeys_regErase hnd, ?_, ?_, ?_, ?_⟩
    · intro e he
      exact hle e (mem_regErase.mp he).1
    · intro e he
      exact hhr e (mem_regErase.mp he).1
    · show (if pi.handshake then dec32 s.handshake_outstanding else s.handshake_outstanding) =
        hsCard (regErase k s.sent_packets) % W32
      have hcard := hsCard_regErase hnd hf
      by_cases hb : pi.handshake = true
      · simp only [hb, if_true] at hcard ⊢
        rw [hhs, hcard, dec32_mod _ (by omega)]
        simp
      · simp only [hb, if_false] at hcard ⊢
        rw [hhs, hcard]
        simp
    · show (if pi.retransmittable then dec32 s.retransmittable_outstanding
          else s.retransmittable_outstanding) = rtCard (regErase k s.sent_packets) % W32
      have hcard := rtCard_regErase hnd hf
      by_cases hb : pi.retransmittable = true
      · simp only [hb, if_true] at hcard ⊢
        rw [hrt, hcard, dec32_mod _ (by omega)]
        simp
      · simp only [hb, if_false] at hcard ⊢
        rw [hrt, hcard]
        simp

theorem invCount_removeLost :
    ∀ (ls : List ℕ) {s : LDState}, InvCount s → InvCount (removeLost s ls) := by
  intro ls
  induction ls with
  | nil => intro s h; exact h
  | cons k rest ih =>
    intro s h
    rw [removeLost_cons]
    exact ih (invCount_ackErase k h)

theorem invCount_onPacketAcked (pn : ℕ) {s : LDState} (h : InvCount s) :
    InvCount (onPacketAcked pn s) := by
  rw [onPacketAcked_eq]
  exact invCount_ackErase pn (invCount_congr rfl rfl rfl rfl h)

theorem invCount_detectLostPackets (now : ℤ) (largest : ℕ) {s : LDState} (h : InvCount s) :
    InvCount (detectLostPackets now largest s) := by
  unfold detectLostPackets
  exact invCount_removeLost _ (invCount_congr rfl rfl rfl rfl h)

theorem invCount_foldAck :
    ∀ (ns : List ℕ) {s : LDState}, InvCount s →
      InvCount (ns.foldl (fun t n => onPacketAcked n t) s) := by
  intro ns
  induction ns with
  | nil => intro s h; exact h
  | cons n rest ih =>
    intro s h
    rw [List.foldl_cons]
    exact ih (invCount_onPacketAcked n h)

theorem invCount_onAckPhase1 (now : ℤ) (ack : AckFrame) {s : LDState} (h : InvCount s) :
    InvCount (onAckPhase1 now ack s) := by
  unfold onAckPhase1
  dsimp only
  cases hf : regFind ack.largest_acknowledged s.sent_packets with
  | none =>
    exact invCount_foldAck _ (invCount_congr rfl rfl rfl rfl h)
  | some pi =>
    exact invCount_foldAck _ (invCount_updateRtt _ (invCount_congr rfl rfl rfl rfl h))

theorem invCount_onAckReceived (now : ℤ) (ack : AckFrame) {s : LDState} (h : InvCount s) :
    InvCount (onAckReceived now ack s) :=
  invCount_setAlarm now
    (invCount_detectLostPackets now ack.largest_acknowledged (invCount_onAckPhase1 now ack h))

theorem invCount_rhs_fold :
    ∀ (l : Registry) (s : LDState), s.sent_packets = l → InvCount s →
      InvCount ((leadingHandshakes l).foldl retransmitStep s) := by
  intro l
  induction l with
  | nil =>
    intro s _ h
    exact h
  | cons e rest ih =>
    obtain ⟨k, pi⟩ := e
    intro s hreg hinv
    by_cases hh : pi.handshake = true
    · obtain ⟨hnd, hle, hhr, hhs, hrt⟩ := hinv
      have hmem : (k, pi) ∈ s.sent_packets := by
        rw [hreg]
        exact List.mem_cons_self _ _
      have hret : pi.retransmittable = true := hhr _ hmem hh
      have hndk : k ∉ regKeys rest := by
        have := hnd
        rw [hreg] at this
        exact (List.nodup_cons.mp this).1
      have hreg' : (retransmitStep s k).sent_packets = rest := by
        show regErase k s.sent_packets = rest
        rw [hreg, regErase_cons_self, regErase_of_not_mem hndk]
      have hinv' : InvCount (retransmitStep s k) := by
        refine ⟨?_, ?_, ?_, ?_, ?_⟩
        · rw [hreg']
          have := hnd
          rw [hreg] at this
          exact (List.nodup_cons.mp this).2
        · intro e he
          rw [hreg'] at he
          exact hle e (by rw [hreg]; exact List.mem_cons_of_mem _ he)
        · intro e he
          rw [hreg'] at he
          exact hhr e (by rw [hreg]; exact List.mem_cons_of_mem _ he)
        · show dec32 s.handshake_outstanding = hsCard (retransmitStep s k).sent_packets % W32
          rw [hreg', hhs, hreg]
          have hcons : hsCard ((k, pi) :: rest) = hsCard rest + 1 := by
            simp [hsCard, List.filter_cons, hh]
          rw [hcons, dec32_mod _ (by omega)]
          simp
        · show dec32 s.retransmittable_outstanding =
            rtCard (retransmitStep s k).sent_packets % W32
          rw [hreg', hrt, hreg]
          have hcons : rtCard ((k, pi) :: rest) = rtCard rest + 1 := by
            simp [rtCard, List.filter_cons, hret]
          rw [hcons, dec32_mod _ (by omega)]
          simp
      have hlead : leadingHandshakes ((k, pi) :: rest) = k :: leadingHandshakes rest := by
        simp [leadingHandshakes, hh]
      rw [hlead, List.foldl_cons]
      exact ih _ hreg' hinv'
    · have hlead : leadingHandshakes ((k, pi) :: rest) = [] := by
        simp [leadingHandshakes, hh]
      rw [hlead]
      exact hinv

theorem invCount_retransmitHandshakePackets {s : LDState} (h : InvCount s) :
    InvCount (retransmitHandshakePackets s) :=
  invCount_rhs_fold s.sent_packets s rfl h

theorem invCount_onLossDetectionAlarm (now : ℤ) {s : LDState} (h : InvCount s) :
    InvCount (onLossDetectionAlarm now s) := by
  unfold onLossDetectionAlarm
  dsimp only
  refine invCount_setAlarm now ?_
  split
  · exact invCount_congr rfl rfl rfl rfl (invCount_retransmitHandshakePackets h)
  · split
    · exact invCount_detectLostPackets now _ h
    · split
      · exact invCount_congr rfl rfl rfl rfl h
      · split
        · exact invCount_congr rfl rfl rfl rfl (invCount_congr rfl rfl rfl rfl h)
        · exact invCount_congr rfl rfl rfl rfl h

theorem invCount_insert (now : ℤ) (pn b : ℕ) (s : LDState) (r h : Bool)
    (hfresh : s.largest_sent_packet < pn) (hhr2 : h = true → r = true) (hinv : InvCount s) :
    InvCount { s with
      largest_sent_packet := pn,
      time_of_last_sent_packet := now,
      sent_packets := regInsert pn ⟨pn, now, r, h, b⟩ s.sent_packets,
      handshake_outstanding :=
        if h then inc32 s.handshake_outstanding else s.handshake_outstanding,
      retransmittable_outstanding :=
        if r then inc32 s.retransmittable_outstanding
        else s.retransmittable_outstanding } := by
  obtain ⟨hnd, hle, hhr, hhs, hrt⟩ := hinv
  have hfresh' : pn ∉ regKeys s.sent_packets := by
    intro hm
    simp only [regKeys, List.mem_map] at hm
    obtain ⟨e, he, hke⟩ := hm
    have := hle e he
    omega
  have hperm := regInsert_perm (v := ⟨pn, now, r, h, b⟩) hfresh'
  refine ⟨?_, ?_, ?_, ?_, ?_⟩
  · show (regKeys (regInsert pn ⟨pn, now, r, h, b⟩ s.sent_packets)).Nodup
    have hkp : (regKeys (regInsert pn ⟨pn, now, r, h, b⟩ s.sent_packets)).Perm
        (pn :: regKeys s.sent_packets) := hperm.map Prod.fst
    rw [hkp.nodup_iff]
    exact List.nodup_cons.mpr ⟨hfresh', hnd⟩
  · intro e he
    rcases List.mem_cons.mp (hperm.mem_iff.mp he) with rfl | hm
    · exact le_refl pn
    · exact le_of_lt (lt_of_le_of_lt (hle e hm) hfresh)
  · intro e he
    rcases List.mem_cons.mp (hperm.mem_iff.mp he) with rfl | hm
    · exact hhr2
    · exact hhr e hm
  · show (if h then inc32 s.handshake_outstanding else s.handshake_outstanding) =
      hsCard (regInsert pn ⟨pn, now, r, h, b⟩ s.sent_packets) % W32
    rw [hsCard_perm hperm]
    cases h with
    | true =>
      have hcons : hsCard ((pn, (⟨pn, now, r, true, b⟩ : PacketInfo)) :: s.sent_packets) =
          hsCard s.sent_packets + 1 := by
        simp [hsCard, List.filter_cons]
      rw [hcons]
      simp only [if_true]
      rw [hhs, inc32_mod]
    | false =>
      have hcons : hsCard ((pn, (⟨pn, now, r, false, b⟩ : PacketInfo)) :: s.sent_packets) =
          hsCard s.sent_packets := by
        simp [hsCard, List.filter_cons]
      rw [hcons]
      simpa using hhs
  · show (if r then inc32 s.retransmittable_outstanding else s.retransmittable_outstanding) =
      rtCard (regInsert pn ⟨pn, now, r, h, b⟩ s.sent_packets) % W32
    rw [rtCard_perm hperm]
    cases r with
    | true =>
      have hcons : rtCard ((pn, (⟨pn, now, true, h, b⟩ : PacketInfo)) :: s.sent_packets) =
          rtCard s.sent_packets + 1 := by
        simp [rtCard, List.filter_cons]
      rw [hcons]
      simp only [if_true]
      rw [hrt, inc32_mod]
    | false =>
      have hcons : rtCard ((pn, (⟨pn, now, false, h, b⟩ : PacketInfo)) :: s.sent_packets) =
          rtCard s.sent_packets := by
        simp [rtCard, List.filter_cons]
      rw [hcons]
      simpa using hrt

theorem invCount_onPacketSent (now : ℤ) (pn : ℕ) (r h : Bool) (b : ℕ) {s : LDState}
    (hfresh : s.largest_sent_packet < pn) (hhr2 : h = true → r = true) (hinv : InvCount s) :
    InvCount (onPacketSent now pn r h b s) := by
  have hmain := invCount_insert now pn b s r h hfresh hhr2 hinv
  cases h with
  | false =>
    cases r with
    | false => exact invCount_congr rfl rfl rfl rfl hmain
    | true =>
      obtain ⟨a, bb, e⟩ := setLossDetectionAlarm_shape now
        { s with
          largest_sent_packet := pn,
          time_of_last_sent_packet := now,
          sent_packets := regInsert pn ⟨pn, now, true, false, b⟩ s.sent_packets,
          retransmittable_outstanding := inc32 s.retransmittable_outstanding }
      show InvCount (setLossDetectionAlarm now
        { s with
          largest_sent_packet := pn,
          time_of_last_sent_packet := now,
          sent_packets := regInsert pn ⟨pn, now, true, false, b⟩ s.sent_packets,
          retransmittable_outstanding := inc32 s.retransmittable_outstanding })
      rw [e]
      exact invCount_congr rfl rfl rfl rfl hmain
  | true =>
    cases r with
    | false => exact invCount_congr rfl rfl rfl rfl hmain
    | true =>
      obtain ⟨a, bb, e⟩ := setLossDetectionAlarm_shape now
        { s with
          largest_sent_packet := pn,
          time_of_last_sent_packet := now,
          sent_packets := regInsert pn ⟨pn, now, true, true, b⟩ s.sent_packets,
          handshake_outstanding := inc32 s.handshake_outstanding,
          retransmittable_outstanding := inc32 s.retransmittable_outstanding }
      show InvCount (setLossDetectionAlarm now
        { s with
          largest_sent_packet := pn,
          time_of_last_sent_packet := now,
          sent_packets := regInsert pn ⟨pn, now, true, true, b⟩ s.sent_packets,
          handshake_outstanding := inc32 s.handshake_outstanding,
          retransmittable_outstanding := inc32 s.retransmittable_outstanding })
      rw [e]
      exact invCount_congr rfl rfl rfl rfl hmain

theorem invCount_run_aux :
    ∀ (ops : List LDOp) (s : LDState), InvCount s → opsWF s ops = true →
      sendsHSRetrans ops = true → InvCount (ops.foldl applyOp s) := by
  intro ops
  induction ops with
  | nil =>
    intro s h _ _
    exact h
  | cons op rest ih =>
    intro s h hwf hhr
    rw [List.foldl_cons]
    cases op with
    | send now pn r hh b =>
      simp only [opsWF, Bool.and_eq_true, decide_eq_true_eq] at hwf
      simp only [sendsHSRetrans, Bool.and_eq_true] at hhr
      refine ih _ (invCount_onPacketSent now pn r hh b hwf.1 ?_ h) hwf.2 hhr.2
      intro he
      cases r with
      | true => rfl
      | false =>
        rw [he] at hhr
        simpa using hhr.1
    | ack now f =>
      simp only [opsWF, Bool.true_and] at hwf
      exact ih _ (invCount_onAckReceived now f h) hwf hhr
    | alarm now =>
      simp only [opsWF, Bool.true_and] at hwf
      exact ih _ (invCount_onLossDetectionAlarm now h) hwf hhr
    | retransmitHandshake =>
      simp only [opsWF, Bool.true_and] at hwf
      exact ih _ (invCount_retransmitHandshakePackets h) hwf hhr
    | sendOnePacket =>
      simp only [opsWF, Bool.true_and] at hwf
      exact ih _ h hwf hhr
    | sendTwoPackets =>
      simp only [opsWF, Bool.true_and] at hwf
      exact ih _ h hwf hhr

theorem invCount_initialState (mode : Bool) : InvCount (initialState mode) := by
  refine ⟨?_, ?_, ?_, ?_, ?_⟩ <;> simp [initialState, regKeys, hsCard, rtCard]

/-! ### The covered-number list of an ACK frame -/

theorem mem_determineNewlyAcked_largest (a : AckFrame) :
    a.largest_acknowledged ∈ determineNewlyAcked a := by
  unfold determineNewlyAcked
  apply List.mem_append_left
  cases a.first_ack_block_length <;> simp [descList]

theorem determineNewlyAcked_ne_nil (a : AckFrame) : determineNewlyAcked a ≠ [] :=
  List.ne_nil_of_mem (mem_determineNewlyAcked_largest a)

/-! ### Folding `_on_packet_acked` over the covered numbers -/

theorem foldAck_shape :
    ∀ (ns : List ℕ) (s : LDState), ∃ reg h r c1 c2 c3,
      ns.foldl (fun t n => onPacketAcked n t) s =
        { s with sent_packets := reg, handshake_outstanding := h,
                 retransmittable_outstanding := r,
                 handshake_count := c1, tlp_count := c2, rto_count := c3 } := by
  intro ns
  induction ns with
  | nil =>
    intro s
    exact ⟨s.sent_packets, s.handshake_outstanding, s.retransmittable_outstanding,
      s.handshake_count, s.tlp_count, s.rto_count, rfl⟩
  | cons n rest ih =>
    intro s
    rw [List.foldl_cons]
    obtain ⟨reg0, h0, r0, e0⟩ := onPacketAcked_shape n s
    rw [e0]
    obtain ⟨reg, h, r, c1, c2, c3, e⟩ := ih
      { s with sent_packets := reg0, handshake_outstanding := h0,
               retransmittable_outstanding := r0,
               handshake_count := 0, tlp_count := 0, rto_count := 0 }
    rw [e]
    exact ⟨reg, h, r, c1, c2, c3, rfl⟩

theorem foldAck_reg :
    ∀ (ns : List ℕ) (s : LDState),
      (ns.foldl (fun t n => onPacketAcked n t) s).sent_packets =
        eraseAll ns s.sent_packets := by
  intro ns
  induction ns with
  | nil => intro s; rfl
  | cons n rest ih =>
    intro s
    rw [List.foldl_cons]
    obtain ⟨reg0, h0, r0, e0⟩ := onPacketAcked_shape n s
    rw [e0, ih, eraseAll_cons]
    have : reg0 = regErase n s.sent_packets := by
      have := onPacketAcked_reg n s
      rw [e0] at this
      exact this
    rw [this]

theorem foldAck_counts :
    ∀ (ns : List ℕ) (s : LDState), ns ≠ [] →
      (ns.foldl (fun t n => onPacketAcked n t) s).handshake_count = 0 ∧
      (ns.foldl (fun t n => onPacketAcked n t) s).tlp_count = 0 ∧
      (ns.foldl (fun t n => onPacketAcked n t) s).rto_count = 0 := by
  intro ns
  induction ns with
  | nil => simp
  | cons n rest ih =>
    intro s _
    rw [List.foldl_cons]
    cases rest with
    | nil =>
      obtain ⟨reg0, h0, r0, e0⟩ := onPacketAcked_shape n s
      simp [e0]
    | cons m rest2 => exact ih _ (by simp)

theorem onPacketAcked_id (pn : ℕ) (s : LDState) (hf : regFind pn s.sent_packets = none)
    (h1 : s.handshake_count = 0) (h2 : s.tlp_count = 0) (h3 : s.rto_count = 0) :
    onPacketAcked pn s = s := by
  have e0 : ({ s with handshake_count := 0, tlp_count := 0, rto_count := 0 } : LDState) = s := by
    cases s
    simp_all
  rw [onPacketAcked_eq, e0]
  have hid : decrementPacketCount pn s = s := by
    unfold decrementPacketCount
    rw [hf]
  rw [hid, regErase_eq_of_regFind_none hf]

theorem foldAck_id :
    ∀ (ns : List ℕ) (s : LDState), (∀ n ∈ ns, regFind n s.sent_packets = none) →
      s.handshake_count = 0 → s.tlp_count = 0 → s.rto_count = 0 →
      ns.foldl (fun t n => onPacketAcked n t) s = s := by
  intro ns
  induction ns with
  | nil => intro s _ _ _ _; rfl
  | cons n rest ih =>
    intro s hf h1 h2 h3
    rw [List.foldl_cons, onPacketAcked_id n s (hf n (List.mem_cons_self _ _)) h1 h2 h3]
    exact ih s (fun m hm => hf m (List.mem_cons_of_mem _ hm)) h1 h2 h3

/-! ### The first phase of `_on_ack_received` -/

theorem onAckPhase1_shape (now : ℤ) (ack : AckFrame) (s : LDState) :
    ∃ lr sm rv, onAckPhase1 now ack s =
      (determineNewlyAcked ack).foldl (fun t n => onPacketAcked n t)
        { s with largest_acked_packet := ack.largest_acknowledged,
                 latest_rtt := lr, smoothed_rtt := sm, rttvar := rv } := by
  unfold onAckPhase1
  dsimp only
  cases hf : regFind ack.largest_acknowledged s.sent_packets with
  | none => exact ⟨s.latest_rtt, s.smoothed_rtt, s.rttvar, rfl⟩
  | some pi =>
    obtain ⟨a, b, e⟩ := updateRtt_shape
      (if now - pi.time > (ack.ack_delay : ℤ) * HRTIME_MSECOND then
        now - pi.time - (ack.ack_delay : ℤ) * HRTIME_MSECOND
      else now - pi.time)
      { s with largest_acked_packet := ack.largest_acknowledged,
               latest_rtt :=
                 if now - pi.time > (ack.ack_delay : ℤ) * HRTIME_MSECOND then
                   now - pi.time - (ack.ack_delay : ℤ) * HRTIME_MSECOND
                 else now - pi.time }
    refine ⟨if now - pi.time > (ack.ack_delay : ℤ) * HRTIME_MSECOND then
        now - pi.time - (ack.ack_delay : ℤ) * HRTIME_MSECOND
      else now - pi.time, a, b, ?_⟩
    exact congrArg
      (fun t => (determineNewlyAcked ack).foldl (fun t n => onPacketAcked n t) t) e

theorem onAckPhase1_reg (now : ℤ) (ack : AckFrame) (s : LDState) :
    (onAckPhase1 now ack s).sent_packets =
      eraseAll (determineNewlyAcked ack) s.sent_packets := by
  obtain ⟨lr, sm, rv, e⟩ := onAckPhase1_shape now ack s
  rw [e, foldAck_reg]

theorem onAckPhase1_la (now : ℤ) (ack : AckFrame) (s : LDState) :
    (onAckPhase1 now ack s).largest_acked_packet = ack.largest_acknowledged := by
  obtain ⟨lr, sm, rv, e⟩ := onAckPhase1_shape now ack s
  obtain ⟨reg, h, r, c1, c2, c3, e2⟩ := foldAck_shape (determineNewlyAcked ack)
    { s with largest_acked_packet := ack.largest_acknowledged,
             latest_rtt := lr, smoothed_rtt := sm, rttvar := rv }
  rw [e, e2]

theorem onAckPhase1_counts (now : ℤ) (ack : AckFrame) (s : LDState) :
    (onAckPhase1 now ack s).handshake_count = 0 ∧
    (onAckPhase1 now ack s).tlp_count = 0 ∧
    (onAckPhase1 now ack s).rto_count = 0 := by
  obtain ⟨lr, sm, rv, e⟩ := onAckPhase1_shape now ack s
  rw [e]
  exact foldAck_counts _ _ (determineNewlyAcked_ne_nil ack)

/-! ### The loss-detection walk -/

theorem detectWalk_cons (now : ℤ) (largest delay thr k : ℕ) (pi : PacketInfo)
    (rest : Registry) (lt : ℤ) :
    detectWalk now largest delay thr ((k, pi) :: rest) lt =
      if largest ≤ k then ([], lt)
      else if now - pi.time > (delay : ℤ) ∨ thr < delta64 largest pi.packet_number then
        (k :: (detectWalk now largest delay thr rest lt).1,
          (detectWalk now largest delay thr rest lt).2)
      else detectWalk now largest delay thr rest
        (if lt = 0 then now + (delay : ℤ) - (now - pi.time) else lt) := rfl

theorem detectWalk_lost_mem (now : ℤ) (largest delay thr : ℕ) :
    ∀ (l : Registry) (lt : ℤ) (k : ℕ), k ∈ (detectWalk now largest delay thr l lt).1 →
      ∃ pi, (k, pi) ∈ l ∧
        (now - pi.time > (delay : ℤ) ∨ thr < delta64 largest pi.packet_number) := by
  intro l
  induction l with
  | nil => simp [detectWalk]
  | cons e rest ih =>
    obtain ⟨k', pi'⟩ := e
    intro lt k hk
    rw [detectWalk_cons] at hk
    by_cases hb : largest ≤ k'
    · rw [if_pos hb] at hk
      simp at hk
    · rw [if_neg hb] at hk
      by_cases hl : now - pi'.time > (delay : ℤ) ∨ thr < delta64 largest pi'.packet_number
      · rw [if_pos hl] at hk
        rcases List.mem_cons.mp hk with rfl | hk2
        · exact ⟨pi', List.mem_cons_self _ _, hl⟩
        · obtain ⟨pi, hm, hc⟩ := ih lt k hk2
          exact ⟨pi, List.mem_cons_of_mem _ hm, hc⟩
      · rw [if_neg hl] at hk
        obtain ⟨pi, hm, hc⟩ := ih _ k hk
        exact ⟨pi, List.mem_cons_of_mem _ hm, hc⟩

theorem detectWalk_lost_sub (now : ℤ) (largest delay thr : ℕ) (l : Registry) (lt : ℤ) :
    (detectWalk now largest delay thr l lt).1 ⊆ regKeys l := by
  intro k hk
  obtain ⟨pi, hm, _⟩ := detectWalk_lost_mem now largest delay thr l lt k hk
  exact List.mem_map_of_mem Prod.fst hm

theorem detectWalk_eraseAll_self (now : ℤ) (largest delay thr : ℕ) :
    ∀ (l : Registry) (lt : ℤ), (regKeys l).Nodup →
      detectWalk now largest delay thr
        (eraseAll (detectWalk now largest delay thr l lt).1 l) lt =
        ([], (detectWalk now largest delay thr l lt).2) := by
  intro l
  induction l with
  | nil =>
    intro lt _
    rfl
  | cons e rest ih =>
    obtain ⟨k, pi⟩ := e
    intro lt hnd
    have hndk : k ∉ regKeys rest := (List.nodup_cons.mp (by simpa [regKeys] using hnd)).1
    have hndr : (regKeys rest).Nodup := (List.nodup_cons.mp (by simpa [regKeys] using hnd)).2
    by_cases hb : largest ≤ k
    · rw [detectWalk_cons, if_pos hb]
      rw [eraseAll_nil, detectWalk_cons, if_pos hb]
    · by_cases hl : now - pi.time > (delay : ℤ) ∨ thr < delta64 largest pi.packet_number
      · rw [detectWalk_cons, if_neg hb, if_pos hl]
        have hload : eraseAll (k :: (detectWalk now largest delay thr rest lt).1)
            ((k, pi) :: rest) =
            eraseAll (detectWalk now largest delay thr rest lt).1 rest := by
          rw [eraseAll_cons, regErase_cons_self, regErase_of_not_mem hndk]
        rw [hload]
        exact ih lt hndr
      · rw [detectWalk_cons, if_neg hb, if_neg hl]
        have hsub := detectWalk_lost_sub now largest delay thr rest
          (if lt = 0 then now + (delay : ℤ) - (now - pi.time) else lt)
        have hknot : k ∉ (detectWalk now largest delay thr rest
            (if lt = 0 then now + (delay : ℤ) - (now - pi.time) else lt)).1 :=
          fun hx => hndk (hsub hx)
        rw [eraseAll_cons_of_not_mem hknot, detectWalk_cons, if_neg hb, if_neg hl]
        exact ih _ hndr

/-! ### `_set_loss_detection_alarm` equations and idempotence -/

theorem setAlarm_of_guard_true (now : ℤ) (u : LDState)
    (hg : u.retransmittable_outstanding = 0 ∧ u.alarm_armed = true) :
    setLossDetectionAlarm now u =
      { u with loss_detection_alarm_at := 0, alarm_armed := false } := by
  unfold setLossDetectionAlarm
  rw [if_pos hg]

theorem setAlarm_of_guard_false (now : ℤ) (u : LDState)
    (hg : ¬ (u.retransmittable_outstanding = 0 ∧ u.alarm_armed = true)) :
    setLossDetectionAlarm now u =
      { u with
        loss_detection_alarm_at :=
          if u.loss_detection_alarm_at ≠ 0 then
            min u.loss_detection_alarm_at (now + alarmDuration now u)
          else now + alarmDuration now u,
        alarm_armed := true } := by
  unfold setLossDetectionAlarm
  rw [if_neg hg]

theorem minArm (a d : ℤ) :
    (if (if a ≠ 0 then min a d else d) ≠ 0 then min (if a ≠ 0 then min a d else d) d
     else d) = (if a ≠ 0 then min a d else d) := by
  split_ifs <;> omega

theorem setAlarm_idem (now : ℤ) (u : LDState)
    (h : ¬ u.retransmittable_outstanding = 0) :
    setLossDetectionAlarm now (setLossDetectionAlarm now u) =
      setLossDetectionAlarm now u := by
  have hg1 : ¬ (u.retransmittable_outstanding = 0 ∧ u.alarm_armed = true) := fun hc => h hc.1
  rw [setAlarm_of_guard_false now u hg1]
  rw [setAlarm_of_guard_false now
    ({ u with
      loss_detection_alarm_at :=
        if u.loss_detection_alarm_at ≠ 0 then
          min u.loss_detection_alarm_at (now + alarmDuration now u)
        else now + alarmDuration now u,
      alarm_armed := true })
    (fun hc => h hc.1)]
  dsimp only
  have hd : alarmDuration now
      { u with
        loss_detection_alarm_at :=
          if u.loss_detection_alarm_at ≠ 0 then
            min u.loss_detection_alarm_at (now + alarmDuration now u)
          else now + alarmDuration now u,
        alarm_armed := true } = alarmDuration now u := rfl
  rw [hd, minArm]

/-! ### Idempotence of `_on_ack_received` -/

theorem onAckCore_eq (now : ℤ) (ack : AckFrame) (s : LDState) :
    onAckCore now ack s =
      detectLostPackets now ack.largest_acknowledged (onAckPhase1 now ack s) := rfl

theorem onAckReceived_eq (now : ℤ) (ack : AckFrame) (s : LDState) :
    onAckReceived now ack s = setLossDetectionAlarm now (onAckCore now ack s) := rfl

theorem delayUntilLost_congr {s t : LDState} (largest : ℕ)
    (h1 : t.time_loss_active = s.time_loss_active)
    (h2 : t.latest_rtt = s.latest_rtt) (h3 : t.smoothed_rtt = s.smoothed_rtt)
    (h4 : t.largest_sent_packet = s.largest_sent_packet) :
    delayUntilLost t largest = delayUntilLost s largest := by
  unfold delayUntilLost
  rw [h1, h2, h3, h4]

theorem detectLostPackets_id (now : ℤ) (largest : ℕ) (s : LDState)
    (hwalk : detectResult now largest s = ([], s.loss_time)) :
    detectLostPackets now largest s = s := by
  unfold detectLostPackets
  rw [hwalk]
  rfl

theorem onAckCore_fix (now : ℤ) (ack : AckFrame) (s1 : LDState)
    (hla : s1.largest_acked_packet = ack.largest_acknowledged)
    (hfind : ∀ n ∈ determineNewlyAcked ack, regFind n s1.sent_packets = none)
    (hc1 : s1.handshake_count = 0) (hc2 : s1.tlp_count = 0) (hc3 : s1.rto_count = 0)
    (hwalk : detectResult now ack.largest_acknowledged s1 = ([], s1.loss_time)) :
    onAckCore now ack s1 = s1 := by
  have hphase : onAckPhase1 now ack s1 = s1 := by
    have hfL : regFind ack.largest_acknowledged s1.sent_packets = none :=
      hfind _ (mem_determineNewlyAcked_largest ack)
    have e0 : ({ s1 with largest_acked_packet := ack.largest_acknowledged } : LDState) = s1 := by
      cases s1
      simp_all
    unfold onAckPhase1
    dsimp only
    rw [hfL, e0]
    exact foldAck_id _ _ hfind hc1 hc2 hc3
  rw [onAckCore_eq, hphase]
  exact detectLostPackets_id now _ s1 hwalk

/-- Claim C8 (corrected): delivering the same ACK twice at the same clock
reading is a no-op after the first application on the registry, the
outstanding counters, the RTT fields, `loss_time`, the retry counts and
`largest_acked_packet`; the alarm state is also unchanged provided
retransmittable packets remain outstanding after the first delivery (when none
remain, the first delivery cancels the alarm and the second re-arms it). -/
theorem C8_amended (now : ℤ) (ack : AckFrame) (s : LDState)
    (hnd : (regKeys s.sent_packets).Nodup) :
    (onAckReceived now ack (onAckReceived now ack s)).sent_packets
        = (onAckReceived now ack s).sent_packets ∧
    (onAckReceived now ack (onAckReceived now ack s)).handshake_outstanding
        = (onAckReceived now ack s).handshake_outstanding ∧
    (onAckReceived now ack (onAckReceived now ack s)).retransmittable_outstanding
        = (onAckReceived now ack s).retransmittable_outstanding ∧
    (onAckReceived now ack (onAckReceived now ack s)).latest_rtt
        = (onAckReceived now ack s).latest_rtt ∧
    (onAckReceived now ack (onAckReceived now ack s)).smoothed_rtt
        = (onAckReceived now ack s).smoothed_rtt ∧
    (onAckReceived now ack (onAckReceived now ack s)).rttvar
        = (onAckReceived now ack s).rttvar ∧
    (onAckReceived now ack (onAckReceived now ack s)).loss_time
        = (onAckReceived now ack s).loss_time ∧
    (onAckReceived now ack (onAckReceived now ack s)).handshake_count
        = (onAckReceived now ack s).handshake_count ∧
    (onAckReceived now ack (onAckReceived now ack s)).tlp_count
        = (onAckReceived now ack s).tlp_count ∧
    (onAckReceived now ack (onAckReceived now ack s)).rto_count
        = (onAckReceived now ack s).rto_count ∧
    (onAckReceived now ack (onAckReceived now ack s)).largest_acked_packet
        = (onAckReceived now ack s).largest_acked_packet ∧
    ((onAckReceived now ack s).retransmittable_outstanding ≠ 0 →
      onAckReceived now ack (onAckReceived now ack s) = onAckReceived now ack s) := by
  obtain ⟨regA, hA, rA, edet⟩ :=
    detectLostPackets_shape now ack.largest_acknowledged (onAckPhase1 now ack s)
  obtain ⟨aA, bA, ealarm⟩ := setLossDetectionAlarm_shape now
    (detectLostPackets now ack.largest_acknowledged (onAckPhase1 now ack s))
  have hs1 : onAckReceived now ack s = setLossDetectionAlarm now
      (detectLostPackets now ack.largest_acknowledged (onAckPhase1 now ack s)) := rfl
  have hpcounts := onAckPhase1_counts now ack s
  have hpreg := onAckPhase1_reg now ack s
  have hpla := onAckPhase1_la now ack s
  have hndp : (regKeys (onAckPhase1 now ack s).sent_packets).Nodup := by
    rw [hpreg]
    exact nodup_regKeys_eraseAll _ hnd
  have hs1la : (onAckReceived now ack s).largest_acked_packet = ack.largest_acknowledged := by
    rw [hs1, ealarm, edet]
    exact hpla
  have hs1c1 : (onAckReceived now ack s).handshake_count = 0 := by
    rw [hs1, ealarm, edet]
    exact hpcounts.1
  have hs1c2 : (onAckReceived now ack s).tlp_count = 0 := by
    rw [hs1, ealarm, edet]
    exact hpcounts.2.1
  have hs1c3 : (onAckReceived now ack s).rto_count = 0 := by
    rw [hs1, ealarm, edet]
    exact hpcounts.2.2
  have hs1reg : (onAckReceived now ack s).sent_packets =
      eraseAll (detectResult now ack.largest_acknowledged (onAckPhase1 now ack s)).1
        (onAckPhase1 now ack s).sent_packets := by
    rw [hs1, ealarm]
    exact detectLostPackets_reg now ack.largest_acknowledged (onAckPhase1 now ack s)
  have hs1lt : (onAckReceived now ack s).loss_time =
      (detectResult now ack.largest_acknowledged (onAckPhase1 now ack s)).2 := by
    rw [hs1, ealarm, edet]
  have hs1find : ∀ n ∈ determineNewlyAcked ack,
      regFind n (onAckReceived now ack s).sent_packets = none := by
    intro n hn
    rw [regFind_eq_none, hs1reg]
    apply not_mem_regKeys_eraseAll_of_not_mem
    rw [hpreg]
    exact not_mem_regKeys_eraseAll_of_mem hn
  have hdelay : delayUntilLost (onAckReceived now ack s) ack.largest_acknowledged =
      delayUntilLost (onAckPhase1 now ack s) ack.largest_acknowledged := by
    refine delayUntilLost_congr _ ?_ ?_ ?_ ?_ <;> rw [hs1, ealarm, edet]
  have hthr : (onAckReceived now ack s).reordering_threshold =
      (onAckPhase1 now ack s).reordering_threshold := by
    rw [hs1, ealarm, edet]
  have hs1walk : detectResult now ack.largest_acknowledged (onAckReceived now ack s) =
      ([], (onAckReceived now ack s).loss_time) := by
    unfold detectResult
    rw [hdelay, hthr, hs1reg, hs1lt]
    exact detectWalk_eraseAll_self now ack.largest_acknowledged
      (delayUntilLost (onAckPhase1 now ack s) ack.largest_acknowledged)
      (onAckPhase1 now ack s).reordering_threshold
      (onAckPhase1 now ack s).sent_packets 0 hndp
  have hcore : onAckCore now ack (onAckReceived now ack s) = onAckReceived now ack s :=
    onAckCore_fix now ack _ hs1la hs1find hs1c1 hs1c2 hs1c3 hs1walk
  have hs2 : onAckReceived now ack (onAckReceived now ack s) =
      setLossDetectionAlarm now (onAckReceived now ack s) := by
    rw [onAckReceived_eq now ack (onAckReceived now ack s), hcore]
  obtain ⟨a2, b2, e2⟩ := setLossDetectionAlarm_shape now (onAckReceived now ack s)
  refine ⟨?_, ?_, ?_, ?_, ?_, ?_, ?_, ?_, ?_, ?_, ?_, ?_⟩
  · rw [hs2, e2]
  · rw [hs2, e2]
  · rw [hs2, e2]
  · rw [hs2, e2]
  · rw [hs2, e2]
  · rw [hs2, e2]
  · rw [hs2, e2]
  · rw [hs2, e2]
  · rw [hs2, e2]
  · rw [hs2, e2]
  · rw [hs2, e2]
  · intro hrt
    rw [hs2, hs1]
    refine setAlarm_idem now _ ?_
    rw [hs1, ealarm] at hrt
    exact hrt

/-! ### Claim theorems -/

/-- Claim C1 (corrected): from the empty state, after any sequence of core
operations in which packet numbers strictly increase (the spec's caller
contract) and every handshake packet sent is also retransmittable,
`handshake_outstanding` and `retransmittable_outstanding` equal the number of
registry entries with the respective flag reduced modulo 2^32 (the counters
are uint32), hence equal them exactly while the cardinalities stay below
2^32. -/
theorem C1_amended (mode : Bool) (ops : List LDOp)
    (hwf : opsWF (initialState mode) ops = true)
    (hhr : sendsHSRetrans ops = true) :
    (run mode ops).handshake_outstanding = hsCard (run mode ops).sent_packets % W32 ∧
    (run mode ops).retransmittable_outstanding = rtCard (run mode ops).sent_packets % W32 ∧
    (hsCard (run mode ops).sent_packets < W32 →
      (run mode ops).handshake_outstanding = hsCard (run mode ops).sent_packets) ∧
    (rtCard (run mode ops).sent_packets < W32 →
      (run mode ops).retransmittable_outstanding = rtCard (run mode ops).sent_packets) := by
  obtain ⟨_, _, _, hhs, hrt⟩ :=
    invCount_run_aux ops (initialState mode) (invCount_initialState mode) hwf hhr
  exact ⟨hhs, hrt,
    fun hlt => hhs.trans (Nat.mod_eq_of_lt hlt),
    fun hlt => hrt.trans (Nat.mod_eq_of_lt hlt)⟩

/-- Witness for C1: a single handshake-and-retransmittable send satisfies both
hypotheses and the counter equality. -/
theorem C1_amended_witness :
    opsWF (initialState false) [LDOp.send 0 1 true true 100] = true ∧
    sendsHSRetrans [LDOp.send 0 1 true true 100] = true ∧
    (run false [LDOp.send 0 1 true true 100]).handshake_outstanding =
      hsCard (run false [LDOp.send 0 1 true true 100]).sent_packets % W32 :=
  ⟨by decide, by decide,
    (C1_amended false [LDOp.send 0 1 true true 100] (by decide) (by decide)).1⟩

/-- Counterexample for C1 as stated: sending a handshake packet that is not
retransmittable and then running the handshake retransmission action leaves
`retransmittable_outstanding` at 2^32 - 1 (uint32 underflow) while no
retransmittable entry is in the registry. -/
theorem C1_counterexample :
    opsWF (initialState false)
      [LDOp.send 0 1 false true 100, LDOp.retransmitHandshake] = true ∧
    (run false [LDOp.send 0 1 false true 100,
      LDOp.retransmitHandshake]).retransmittable_outstanding = 4294967295 ∧
    rtCard (run false [LDOp.send 0 1 false true 100,
      LDOp.retransmitHandshake]).sent_packets = 0 ∧
    ¬ (4294967295 : ℕ) = 0 := by decide

/-- Claim C2 (code_bug): the source computes the RTT smoothing with C++
integer divisions `3 / 4`, `1 / 4`, `7 / 8`, `1 / 8`, all equal to 0, so a
second sample zeroes both `rttvar` and `smoothed_rtt` instead of producing
the RFC 6298 values (40 and 95 here). -/
theorem C2_code_eval :
    (updateRtt 60 { initialState false with
      smoothed_rtt := 100, rttvar := 40 }).rttvar = 0 ∧
    (updateRtt 60 { initialState false with
      smoothed_rtt := 100, rttvar := 40 }).smoothed_rtt = 0 ∧
    ¬ ((0 : ℤ) = 40) ∧ ¬ ((0 : ℤ) = 95) := by decide

/-- Claim C3 (code_bug): in the early-retransmit branch the source writes
`9 / 8 * max(latest_rtt, smoothed_rtt)` with integer division `9 / 8 = 1`,
so with `latest_rtt = 8` the computed `delay_until_lost` is 8, not the
real-valued `9/8 * 8 = 9` the claim states. -/
theorem C3_code_eval :
    delayUntilLost { initialState false with
      largest_sent_packet := 7, latest_rtt := 8 } 7 = 8 ∧
    ¬ (8 : ℕ) = 9 := by decide

/-- Claim C4 (corrected): `_on_ack_received` assigns
`largest_acked_packet = ack.largest_acknowledged` outright (no max with the
previous value), so the field can decrease across ACK deliveries. -/
theorem C4_amended (now : ℤ) (ack : AckFrame) (s : LDState) :
    (onAckReceived now ack s).largest_acked_packet = ack.largest_acknowledged := by
  obtain ⟨regA, hA, rA, edet⟩ :=
    detectLostPackets_shape now ack.largest_acknowledged (onAckPhase1 now ack s)
  obtain ⟨aA, bA, ealarm⟩ := setLossDetectionAlarm_shape now
    (detectLostPackets now ack.largest_acknowledged (onAckPhase1 now ack s))
  have hs1 : onAckReceived now ack s = setLossDetectionAlarm now
      (detectLostPackets now ack.largest_acknowledged (onAckPhase1 now ack s)) := rfl
  rw [hs1, ealarm, edet]
  exact onAckPhase1_la now ack s

/-- Counterexample for C4 as stated: an ACK with largest 5 followed by one
with largest 3 leaves `largest_acked_packet = 3`, not `max 5 3`. -/
theorem C4_counterexample :
    (onAckReceived 0 ⟨5, 0, 0, []⟩ (initialState false)).largest_acked_packet = 5 ∧
    (onAckReceived 0 ⟨3, 0, 0, []⟩
      (onAckReceived 0 ⟨5, 0, 0, []⟩ (initialState false))).largest_acked_packet = 3 ∧
    ¬ (3 : ℕ) = max 5 3 := by decide

/-- Claim C5 (code_bug): with time-based loss detection off and
`largest_acked ≠ largest_sent_packet`, `delay_until_lost` keeps the sentinel
UINT32_MAX, but the guard `delay_until_lost != INFINITY` compares a uint32
with the float INFINITY and is always true, so `loss_time` is still armed:
here it becomes `now + UINT32_MAX - time_since_sent = 4294967345 ≠ 0`. -/
theorem C5_code_eval :
    delayUntilLost { initialState false with
      sent_packets := [(1, ⟨1, 50, true, false, 100⟩)],
      largest_sent_packet := 5, retransmittable_outstanding := 1 } 3 = UINT32_MAX ∧
    (detectLostPackets 100 3 { initialState false with
      sent_packets := [(1, ⟨1, 50, true, false, 100⟩)],
      largest_sent_packet := 5,
      retransmittable_outstanding := 1 }).loss_time = 4294967345 ∧
    ¬ ((4294967345 : ℤ) = 0) := by decide

/-- Claim C6 (corrected): `_set_loss_detection_alarm` cancels and zeroes the
deadline only when no retransmittable packet is outstanding AND a timer event
handle is currently armed; in every other case (including
`retransmittable_outstanding = 0` with no armed handle) it arms:
the deadline becomes `min(existing nonzero deadline, now + mode duration)`,
or `now + duration` when no deadline was set. -/
theorem C6_amended (now : ℤ) (s : LDState) :
    (setLossDetectionAlarm now s).loss_detection_alarm_at =
      (if s.retransmittable_outstanding = 0 ∧ s.alarm_armed = true then 0
       else if s.loss_detection_alarm_at ≠ 0 then
         min s.loss_detection_alarm_at (now + alarmDuration now s)
       else now + alarmDuration now s) ∧
    (setLossDetectionAlarm now s).alarm_armed =
      (if s.retransmittable_outstanding = 0 ∧ s.alarm_armed = true then false
       else true) := by
  by_cases hg : s.retransmittable_outstanding = 0 ∧ s.alarm_armed = true
  · rw [setAlarm_of_guard_true now s hg, if_pos hg, if_pos hg]
    exact ⟨rfl, rfl⟩
  · rw [setAlarm_of_guard_false now s hg, if_neg hg, if_neg hg]
    exact ⟨rfl, rfl⟩

/-- Counterexample for C6 as stated: calling the alarm setter on the freshly
constructed state (no retransmittable packets, no armed timer) arms the alarm
at `now + MIN_TLP_TIMEOUT` instead of cancelling and zeroing it. -/
theorem C6_counterexample :
    (initialState false).retransmittable_outstanding = 0 ∧
    (setLossDetectionAlarm 0 (initialState false)).loss_detection_alarm_at = 10000000 ∧
    (setLossDetectionAlarm 0 (initialState false)).alarm_armed = true ∧
    ¬ ((10000000 : ℤ) = 0) := by decide

/-- Claim C7 (corrected): with the time-loss constructor threshold
UINT32_MAX, any packet that `_detect_lost_packets` marks lost whose
packet-number gap from `largest_acked` is at most UINT32_MAX satisfies the
time-based criterion; gaps above UINT32_MAX (possible with 62-bit packet
numbers) can still trip the packet-count rule. -/
theorem C7_amended (now : ℤ) (largest : ℕ) (s : LDState)
    (hthr : s.reordering_threshold = UINT32_MAX)
    (k : ℕ) (pi : PacketInfo) (hnd : (regKeys s.sent_packets).Nodup)
    (hmem : (k, pi) ∈ s.sent_packets)
    (hlost : k ∈ (detectResult now largest s).1)
    (hdelta : delta64 largest pi.packet_number ≤ UINT32_MAX) :
    now - pi.time > (delayUntilLost s largest : ℤ) := by
  obtain ⟨pi2, hm2, hc⟩ := detectWalk_lost_mem now largest (delayUntilLost s largest)
    s.reordering_threshold s.sent_packets 0 k hlost
  have hpi : pi2 = pi := by
    have h1 := regFind_some_of_mem hnd hm2
    have h2 := regFind_some_of_mem hnd hmem
    exact Option.some.inj (h1.symm.trans h2)
  subst hpi
  rcases hc with h | h
  · exact h
  · rw [hthr] at h
    exact absurd h (not_lt.mpr hdelta)

/-- Witness for C7: in time-loss mode a stale packet (sent at 0, examined at
5 with zero RTT estimates) is lost by the time criterion. -/
theorem C7_amended_witness :
    ({ initialState true with
      sent_packets := [(1, ⟨1, 0, true, false, 100⟩)],
      largest_sent_packet := 2,
      retransmittable_outstanding := 1 } : LDState).reordering_threshold = UINT32_MAX ∧
    (5 : ℤ) - (0 : ℤ) >
      (delayUntilLost { initialState true with
        sent_packets := [(1, ⟨1, 0, true, false, 100⟩)],
        largest_sent_packet := 2, retransmittable_outstanding := 1 } 2 : ℤ) :=
  ⟨by decide,
    C7_amended 5 2
      { initialState true with
        sent_packets := [(1, ⟨1, 0, true, false, 100⟩)],
        largest_sent_packet := 2, retransmittable_outstanding := 1 }
      (by decide) 1 ⟨1, 0, true, false, 100⟩ (by decide) (by decide) (by decide)
      (by decide)⟩

/-- Counterexample for C7 as stated: in time-loss mode, after sending packets
1 and 2^32 + 1 and acknowledging only the latter, packet 1 is removed by
`_detect_lost_packets` although its time-based criterion is false (it was
sent at the same instant): `packet_delta = 2^32 > UINT32_MAX` trips the
packet-count rule because the threshold is only UINT32_MAX, not infinite. -/
theorem C7_counterexample :
    (initialState true).time_loss_active = true ∧
    1 ∈ regKeys (run true [LDOp.send 0 1 true false 100,
      LDOp.send 0 4294967297 true false 100]).sent_packets ∧
    (detectResult 0 4294967297 (onAckPhase1 0 ⟨4294967297, 0, 0, []⟩
      (run true [LDOp.send 0 1 true false 100,
        LDOp.send 0 4294967297 true false 100]))).1 = [1] ∧
    ¬ ((0 : ℤ) - 0 >
      (delayUntilLost (onAckPhase1 0 ⟨4294967297, 0, 0, []⟩
        (run true [LDOp.send 0 1 true false 100,
          LDOp.send 0 4294967297 true false 100])) 4294967297 : ℤ)) ∧
    1 ∉ regKeys (run true [LDOp.send 0 1 true false 100,
      LDOp.send 0 4294967297 true false 100,
      LDOp.ack 0 ⟨4294967297, 0, 0, []⟩]).sent_packets := by decide

/-- Witness for C8: the empty initial registry has distinct keys, and a
duplicated ACK leaves the registry of the once-delivered state unchanged. -/
theorem C8_amended_witness :
    (regKeys (initialState false).sent_packets).Nodup ∧
    (onAckReceived 0 ⟨5, 0, 0, []⟩
        (onAckReceived 0 ⟨5, 0, 0, []⟩ (initialState false))).sent_packets =
      (onAckReceived 0 ⟨5, 0, 0, []⟩ (initialState false)).sent_packets :=
  ⟨by decide, (C8_amended 0 ⟨5, 0, 0, []⟩ (initialState false) (by decide)).1⟩

/-- Counterexample for C8 as stated: when the first delivery of the ACK
empties the retransmittable flight it cancels the alarm
(`loss_detection_alarm_at = 0`), and the second delivery of the very same ACK
re-arms it (`= 10000010`), so the second delivery is not a no-op. -/
theorem C8_counterexample :
    (onAckReceived 10 ⟨1, 0, 0, []⟩
      (run false [LDOp.send 0 1 true false 100])).loss_detection_alarm_at = 0 ∧
    (onAckReceived 10 ⟨1, 0, 0, []⟩ (onAckReceived 10 ⟨1, 0, 0, []⟩
      (run false [LDOp.send 0 1 true false 100]))).loss_detection_alarm_at
      = 10000010 ∧
    ¬ ((10000010 : ℤ) = 0) := by decide

/-- Claim C9 (corrected): `_on_packet_acked` on a packet number absent from
the registry leaves the registry and both outstanding counters unchanged, but
it still unconditionally resets `handshake_count`, `tlp_count` and
`rto_count` to zero. -/
theorem C9_amended (n : ℕ) (s : LDState) (hf : regFind n s.sent_packets = none) :
    (onPacketAcked n s).sent_packets = s.sent_packets ∧
    (onPacketAcked n s).handshake_outstanding = s.handshake_outstanding ∧
    (onPacketAcked n s).retransmittable_outstanding = s.retransmittable_outstanding ∧
    (onPacketAcked n s).handshake_count = 0 ∧
    (onPacketAcked n s).tlp_count = 0 ∧
    (onPacketAcked n s).rto_count = 0 := by
  have hid : decrementPacketCount n
      ({ s with handshake_count := 0, tlp_count := 0, rto_count := 0 } : LDState) =
      { s with handshake_count := 0, tlp_count := 0, rto_count := 0 } := by
    unfold decrementPacketCount
    dsimp only
    rw [hf]
  rw [onPacketAcked_eq, hid]
  dsimp only
  rw [regErase_eq_of_regFind_none hf]
  exact ⟨rfl, rfl, rfl, rfl, rfl, rfl⟩

/-- Witness for C9: acknowledging the never-sent number 5 in the initial
state resets `tlp_count` while touching nothing in the empty registry. -/
theorem C9_amended_witness :
    regFind 5 (initialState false).sent_packets = none ∧
    (onPacketAcked 5 (initialState false)).sent_packets =
      (initialState false).sent_packets :=
  ⟨by decide, (C9_amended 5 (initialState false) (by decide)).1⟩

/-- Counterexample for C9 as stated: with `tlp_count = 1` and packet 7 absent
from the registry, processing 7 changes the state: `tlp_count` drops to 0. -/
theorem C9_counterexample :
    regFind 7 ({ initialState false with tlp_count := 1 } : LDState).sent_packets
      = none ∧
    ({ initialState false with tlp_count := 1 } : LDState).tlp_count = 1 ∧
    (onPacketAcked 7 { initialState false with tlp_count := 1 }).tlp_count = 0 ∧
    ¬ (1 : ℕ) = 0 := by decide

/-- Claim C10 (confirmed): when the lowest-numbered registry entry is not a
handshake packet, `_retransmit_handshake_packets` retransmits nothing and the
whole detector state — registry and both outstanding counters included — is
unchanged, even when `handshake_outstanding > 0`. -/
theorem C10_confirmed (s : LDState) (k : ℕ) (pi : PacketInfo) (rest : Registry)
    (hreg : s.sent_packets = (k, pi) :: rest)
    (hsorted : s.sent_packets.Chain' (fun a b => a.1 < b.1))
    (hnh : pi.handshake = false) :
    retransmitHandshakePackets s = s := by
  unfold retransmitHandshakePackets
  rw [hreg]
  have hlead : leadingHandshakes ((k, pi) :: rest) = [] := by
    simp [leadingHandshakes, hnh]
  rw [hlead]
  rfl

/-- Witness for C10: a registry whose lowest entry (number 1) is not a
handshake packet but whose second entry (number 2) is, with
`handshake_outstanding = 1 > 0`: the action changes nothing. -/
theorem C10_confirmed_witness :
    ({ initialState false with
      sent_packets := [(1, ⟨1, 0, true, false, 100⟩), (2, ⟨2, 0, true, true, 100⟩)],
      handshake_outstanding := 1, retransmittable_outstanding := 2,
      largest_sent_packet := 2 } : LDState).handshake_outstanding = 1 ∧
    retransmitHandshakePackets
      { initialState false with
        sent_packets := [(1, ⟨1, 0, true, false, 100⟩), (2, ⟨2, 0, true, true, 100⟩)],
        handshake_outstanding := 1, retransmittable_outstanding := 2,
        largest_sent_packet := 2 } =
      { initialState false with
        sent_packets := [(1, ⟨1, 0, true, false, 100⟩), (2, ⟨2, 0, true, true, 100⟩)],
        handshake_outstanding := 1, retransmittable_outstanding := 2,
        largest_sent_packet := 2 } :=
  ⟨rfl,
    C10_confirmed
      { initialState false with
        sent_packets := [(1, ⟨1, 0, true, false, 100⟩), (2, ⟨2, 0, true, true, 100⟩)],
        handshake_outstanding := 1, retransmittable_outstanding := 2,
        largest_sent_packet := 2 }
      1 ⟨1, 0, true, false, 100⟩ [(2, ⟨2, 0, true, true, 100⟩)] rfl
      (List.chain'_cons.mpr ⟨by decide, List.chain'_singleton _⟩) rfl⟩

end QUICLD
